import Mathlib

/-!
Shallow embedding of `src/main.py` (an HTTP host benchmarking utility) and
proofs about its aggregation, validation and orchestration logic.

Elapsed times are modelled as rationals (`ℚ`); Python floats carry exact
values in every scenario considered here.
-/

namespace HostBench

/-- A received HTTP response, as `main.py` uses `requests.Response`: its
`status_code` and its `elapsed.total_seconds()`. -/
structure Response where
  status_code : Int
  elapsed_total_seconds : ℚ
deriving Repr, DecidableEq

/-- One entry of a `response_list`: a received response, or the `None`
sentinel that `get_response` returns for a transport-level failure. -/
abbrev Outcome := Option Response

/-- The report object built by `HostTestReport.__init__` (src/main.py
lines 8-52). -/
structure HostTestReport where
  host : String
  success : Nat
  failed : Nat
  errors : Nat
  min : ℚ
  max : ℚ
  avg : ℚ
deriving Repr, DecidableEq

/-- The state of the `for response in response_list` loop inside
`HostTestReport.__init__`: the counter fields of `self`, the running
`self.min` (`none` plays the role of the initial `float('inf')`), the
running `self.max`, and the local `times_list`. -/
structure AggState where
  success : Nat
  failed : Nat
  errors : Nat
  min : Option ℚ
  max : ℚ
  times_list : List ℚ
deriving Repr, DecidableEq

/-- The comparison `elapsed_ms < self.min` where `self.min` may still be
`float('inf')` (modelled by `none`): everything is below infinity. -/
def ltInf (e : ℚ) (m : Option ℚ) : Bool :=
  match m with
  | none => true
  | some v => e < v

/-- One iteration of the classification loop of `HostTestReport.__init__`
(src/main.py lines 26-44): `None` counts as an error; a 200 response counts
as a success and contributes `elapsed.total_seconds() * 1000` as a latency
sample, updating the running min and max; a status in `[400, 600)` counts
as failed; anything else counts as an error. -/
def stepOutcome (s : AggState) (r : Outcome) : AggState :=
  match r with
  | none => { s with errors := s.errors + 1 }
  | some resp =>
    let elapsed_ms : ℚ := resp.elapsed_total_seconds * 1000
    if resp.status_code = 200 then
      { s with
        success := s.success + 1
        times_list := s.times_list ++ [elapsed_ms]
        min := if ltInf elapsed_ms s.min then some elapsed_ms else s.min
        max := if s.max < elapsed_ms then elapsed_ms else s.max }
    else if 400 ≤ resp.status_code ∧ resp.status_code < 600 then
      { s with failed := s.failed + 1 }
    else
      { s with errors := s.errors + 1 }

/-- The code after the loop in `HostTestReport.__init__` (src/main.py
lines 46-52): with at least one latency sample, `avg` is the mean of
`times_list` and a still-infinite `min` is replaced by `0.0`; with no
sample, `avg` and `min` become `0.0` (and `max` keeps its loop value). -/
def finalizeReport (host : String) (s : AggState) : HostTestReport :=
  if 0 < s.times_list.length then
    { host := host
      success := s.success
      failed := s.failed
      errors := s.errors
      min := match s.min with | none => 0 | some v => v
      max := s.max
      avg := s.times_list.sum / (s.times_list.length : ℚ) }
  else
    { host := host
      success := s.success
      failed := s.failed
      errors := s.errors
      min := 0
      max := s.max
      avg := 0 }

/-- `HostTestReport.__init__` (src/main.py lines 17-52) as a function from
the constructor arguments to the constructed report: all counters start at
zero, `min` starts at `float('inf')` and `max` at `0.0`, the loop classifies
each entry, then the statistics are finalized. -/
def buildReport (host : String) (response_list : List Outcome) : HostTestReport :=
  finalizeReport host (response_list.foldl stepOutcome ⟨0, 0, 0, none, 0, []⟩)

/-- Attribute access on a `response_list` entry: reading `status_code` from
the `None` sentinel has no value (it would be an `AttributeError`). -/
def getStatus (r : Outcome) : Option Int := r.map Response.status_code

/-- Attribute access on a `response_list` entry: reading
`elapsed.total_seconds()` from the `None` sentinel has no value. -/
def getElapsedSeconds (r : Outcome) : Option ℚ := r.map Response.elapsed_total_seconds

/-- The loop iteration of `HostTestReport.__init__` with every attribute
access on the entry made explicit and fallible (`none` would mean the
iteration dereferenced the `None` sentinel). The source checks
`response is None` first (line 27), so the fallible accesses run only on
actual responses. -/
def stepOutcomeChecked (s : AggState) (r : Outcome) : Option AggState :=
  if r.isNone then some { s with errors := s.errors + 1 }
  else do
    let elapsed_s ← getElapsedSeconds r
    let elapsed_ms : ℚ := elapsed_s * 1000
    let status ← getStatus r
    if status = 200 then
      pure { s with
        success := s.success + 1
        times_list := s.times_list ++ [elapsed_ms]
        min := if ltInf elapsed_ms s.min then some elapsed_ms else s.min
        max := if s.max < elapsed_ms then elapsed_ms else s.max }
    else if 400 ≤ status ∧ status < 600 then
      pure { s with failed := s.failed + 1 }
    else
      pure { s with errors := s.errors + 1 }

/-- `HostTestReport.__init__` with the fallible iteration: the whole
construction fails (`none`) exactly when some iteration dereferences the
sentinel. The finalization code (lines 46-52) reads no entry. -/
def buildReportChecked (host : String) (response_list : List Outcome) :
    Option HostTestReport :=
  (response_list.foldlM stepOutcomeChecked ⟨0, 0, 0, none, 0, []⟩).map (finalizeReport host)

/-- The injected HTTP transport: the outcome of the i-th
`requests.get(url, timeout)` call made for a given url and timeout. A
`none` outcome is the `None` that `HostHttpBench.get_response`
(src/main.py lines 67-72) returns when the request raises a
`RequestException`. -/
def Transport : Type := String → ℚ → Nat → Outcome

/-- `HostHttpBench.get_response_list` (src/main.py lines 61-65): raises
(`Except.error`) when `count <= 0`, otherwise performs `count` calls of
`get_response` on the same url and timeout and returns the outcomes in
attempt order. -/
def get_response_list (t : Transport) (url : String) (timeout : ℚ) (count : Int) :
    Except String (List Outcome) :=
  if count ≤ 0 then .error "Count должен быть больше > 0"
  else .ok ((List.range count.toNat).map fun i => t url timeout i)

/-- The character class `[a-zA-Z0-9.-]` of the host group in the compiled
pattern `HttpHostTest.urls` (src/main.py lines 108-113). -/
def isHostChar (c : Char) : Bool := c.isAlpha || c.isDigit || c == '.' || c == '-'

/-- Python `\s` restricted to the ASCII range (the characters relevant to
the strings this development evaluates). -/
def isPySpace (c : Char) : Bool :=
  c == ' ' || c == '\t' || c == '\n' || c == '\r' || c == '\x0b' || c == '\x0c'

/-- What may follow the `/` of the optional path group `(/[^\s]*)?`:
non-whitespace characters, then `$`, which in Python also matches just
before one trailing newline. -/
def pathRest : List Char → Bool
  | [] => true
  | ['\n'] => true
  | c :: rest => !isPySpace c && pathRest rest

/-- `(/[^\s]*)?$`: the end of the subject, an optional trailing newline, or
a slash-led path of non-whitespace characters. -/
def tailMatch : List Char → Bool
  | [] => true
  | ['\n'] => true
  | '/' :: rest => pathRest rest
  | _ => false

/-- The remainder of `[a-zA-Z]{2,}` after its first two letters, followed
by the rest of the pattern: zero or more further letters, then
`(/[^\s]*)?$`. -/
def tldRest : List Char → Bool
  | [] => true
  | c :: rest => tailMatch (c :: rest) || (c.isAlpha && tldRest rest)

/-- The group `(\.[a-zA-Z]{2,})` followed by the rest of the pattern: a
dot, at least two letters, then `(/[^\s]*)?$`. -/
def dotTld : List Char → Bool
  | '.' :: c1 :: c2 :: rest => c1.isAlpha && c2.isAlpha && tldRest rest
  | _ => false

/-- `([a-zA-Z0-9.-]+)` followed by the rest of the pattern: at least one
host character, then the dot-TLD group; the disjunction enumerates where
the greedy host group may stop. -/
def bodyMatch : List Char → Bool
  | [] => false
  | c :: rest => isHostChar c && (dotTld rest || bodyMatch rest)

/-- `^https?://` followed by the body: the anchored scheme alternatives of
the compiled pattern, matched case-sensitively. -/
def urlChars : List Char → Bool
  | 'h' :: 't' :: 't' :: 'p' :: 's' :: ':' :: '/' :: '/' :: rest => bodyMatch rest
  | 'h' :: 't' :: 't' :: 'p' :: ':' :: '/' :: '/' :: rest => bodyMatch rest
  | _ => false

/-- `HttpHostTest.validate_url` (src/main.py lines 118-119):
`bool(self.urls.match(url))`, i.e. membership of the url in the language of
the anchored pattern `^https?://([a-zA-Z0-9.-]+)(\.[a-zA-Z]{2,})(/[^\s]*)?$`. -/
def validate_url (url : String) : Bool := urlChars url.toList

/-- `HttpHostTest.test_host` (src/main.py lines 121-126): validates the
host string, probes it `count` times and builds the report; raises
(`Except.error`) on an invalid URL, and propagates the raise of
`get_response_list` on a non-positive count. -/
def test_host (t : Transport) (host : String) (timeout : ℚ) (count : Int) :
    Except String HostTestReport :=
  if validate_url host then
    (get_response_list t host timeout count).map fun rs => buildReport host rs
  else
    .error ("Невалидный URL: " ++ host)

/-- `HttpHostTest.test_hosts` (src/main.py lines 128-135), the sequential
runner: the `try` block wraps the whole `for` loop, so the first host whose
`test_host` raises ends the loop, and the reports appended so far are
returned; the remaining hosts are never processed. -/
def test_hosts (t : Transport) (hosts : List String) (timeout : ℚ) (count : Int) :
    List HostTestReport :=
  match hosts with
  | [] => []
  | host :: rest =>
    match test_host t host timeout count with
    | .ok r => r :: test_hosts t rest timeout count
    | .error _ => []

/-- Each iteration of the classification loop increments exactly one of the
three counters of the report state. -/
theorem stepOutcome_counts (s : AggState) (r : Outcome) :
    (stepOutcome s r).success + (stepOutcome s r).failed + (stepOutcome s r).errors
      = s.success + s.failed + s.errors + 1 := by
  cases r with
  | none =>
    simp [stepOutcome]
    omega
  | some resp =>
    by_cases h1 : resp.status_code = 200
    · simp [stepOutcome, h1]
      omega
    · by_cases h2 : 400 ≤ resp.status_code ∧ resp.status_code < 600
      · simp [stepOutcome, h1, h2]
        omega
      · simp [stepOutcome, h1, h2]
        omega

/-- Over the whole loop, the three counters together grow by exactly the
number of entries processed. -/
theorem foldl_stepOutcome_counts (l : List Outcome) (s : AggState) :
    (l.foldl stepOutcome s).success + (l.foldl stepOutcome s).failed
        + (l.foldl stepOutcome s).errors
      = s.success + s.failed + s.errors + l.length := by
  induction l generalizing s with
  | nil => simp
  | cons r rest ih =>
    rw [List.foldl_cons, ih, stepOutcome_counts, List.length_cons]
    omega

/-- Claim C1: for every host string and every outcome sequence given to the
report constructor, the resulting success, failed and error counts sum to
the length of the sequence. -/
theorem buildReport_counts (host : String) (l : List Outcome) :
    (buildReport host l).success + (buildReport host l).failed
        + (buildReport host l).errors = l.length := by
  have h := foldl_stepOutcome_counts l ⟨0, 0, 0, none, 0, []⟩
  unfold buildReport finalizeReport
  split
  · simpa using h
  · simpa using h

/-- Claim C2: the concrete scenario: outcomes with statuses
200/200/404/failure/200 and successful latencies of 100, 200 and 300
milliseconds (elapsed seconds 1/10, 2/10, 3/10) produce 3 successes, 1
failure, 1 error, min 100, max 300 and mean 200 milliseconds, whatever the
elapsed time of the 404 response was. -/
theorem buildReport_scenario (e : ℚ) :
    buildReport "h"
        [some ⟨200, 1/10⟩, some ⟨200, 2/10⟩, some ⟨404, e⟩, none, some ⟨200, 3/10⟩]
      = ⟨"h", 3, 1, 1, 100, 300, 200⟩ := by
  norm_num [buildReport, finalizeReport, stepOutcome, ltInf]

/-- If no entry of the sequence is a 200 response, the loop never runs its
success branch, so the latency sample list, the running min and the running
max keep their initial values. -/
theorem foldl_stepOutcome_no200 (l : List Outcome) :
    ∀ s : AggState, (∀ r ∈ l, getStatus r ≠ some 200) →
      (l.foldl stepOutcome s).times_list = s.times_list ∧
        (l.foldl stepOutcome s).min = s.min ∧
        (l.foldl stepOutcome s).max = s.max := by
  induction l with
  | nil =>
    intro s _
    simp
  | cons r rest ih =>
    intro s h
    have hr : getStatus r ≠ some 200 := h r (by simp)
    have hrest : ∀ x ∈ rest, getStatus x ≠ some 200 := fun x hx => h x (by simp [hx])
    rw [List.foldl_cons]
    have hstep : (stepOutcome s r).times_list = s.times_list ∧
        (stepOutcome s r).min = s.min ∧ (stepOutcome s r).max = s.max := by
      cases r with
      | none => simp [stepOutcome]
      | some resp =>
        have h200 : ¬ resp.status_code = 200 := by
          simpa [getStatus] using hr
        by_cases h2 : 400 ≤ resp.status_code ∧ resp.status_code < 600
        · simp [stepOutcome, h200, h2]
        · simp [stepOutcome, h200, h2]
    obtain ⟨h1, h2', h3⟩ := ih (stepOutcome s r) hrest
    exact ⟨h1.trans hstep.1, h2'.trans hstep.2.1, h3.trans hstep.2.2⟩

/-- Claim C3: a sequence with no status-200 response yields a report whose
min, max and avg latencies are all zero, and the empty sequence yields the
all-zero report. -/
theorem buildReport_no_success (host : String) (l : List Outcome)
    (h : ∀ r ∈ l, getStatus r ≠ some 200) :
    (buildReport host l).min = 0 ∧ (buildReport host l).max = 0 ∧
      (buildReport host l).avg = 0 ∧
      buildReport host [] = ⟨host, 0, 0, 0, 0, 0, 0⟩ := by
  obtain ⟨ht, hm, hx⟩ := foldl_stepOutcome_no200 l ⟨0, 0, 0, none, 0, []⟩ h
  have ht' : (l.foldl stepOutcome ⟨0, 0, 0, none, 0, []⟩).times_list = [] := by
    simpa using ht
  have hm' : (l.foldl stepOutcome ⟨0, 0, 0, none, 0, []⟩).min = none := by
    simpa using hm
  have hx' : (l.foldl stepOutcome ⟨0, 0, 0, none, 0, []⟩).max = 0 := by
    simpa using hx
  refine ⟨?_, ?_, ?_, ?_⟩ <;> simp [buildReport, finalizeReport, ht', hm', hx']

/-- Witness for claim C3 at the concrete sequence `[404-response, failure]`:
its side condition holds and the three latency statistics are zero. -/
theorem buildReport_no_success_witness :
    (∀ r ∈ ([some ⟨404, 1⟩, none] : List Outcome), getStatus r ≠ some 200) ∧
      ((buildReport "h" [some ⟨404, 1⟩, none]).min = 0 ∧
        (buildReport "h" [some ⟨404, 1⟩, none]).max = 0 ∧
        (buildReport "h" [some ⟨404, 1⟩, none]).avg = 0 ∧
        buildReport "h" [] = ⟨"h", 0, 0, 0, 0, 0, 0⟩) := by
  have hh : ∀ r ∈ ([some ⟨404, 1⟩, none] : List Outcome), getStatus r ≠ some 200 := by
    decide
  exact ⟨hh, buildReport_no_success "h" _ hh⟩

/-- The loop invariant tying the statistics state together: the success
counter counts the latency samples, every sample is bounded below by the
value of the running min (which is therefore set as soon as a sample
exists), and every sample is bounded above by the running max. -/
def Inv (s : AggState) : Prop :=
  s.success = s.times_list.length ∧
    (∀ x ∈ s.times_list, ∃ m, s.min = some m ∧ m ≤ x) ∧
    (∀ x ∈ s.times_list, x ≤ s.max)

/-- The initial loop state satisfies the invariant. -/
theorem inv_init : Inv ⟨0, 0, 0, none, 0, []⟩ := by
  refine ⟨rfl, ?_, ?_⟩ <;> simp

/-- One loop iteration preserves the invariant. -/
theorem inv_step (s : AggState) (r : Outcome) (h : Inv s) : Inv (stepOutcome s r) := by
  obtain ⟨hc, hmin, hmax⟩ := h
  cases r with
  | none => exact ⟨hc, hmin, hmax⟩
  | some resp =>
    by_cases h1 : resp.status_code = 200
    · have hstep : stepOutcome s (some resp)
          = { s with
              success := s.success + 1
              times_list := s.times_list ++ [resp.elapsed_total_seconds * 1000]
              min := if ltInf (resp.elapsed_total_seconds * 1000) s.min then
                  some (resp.elapsed_total_seconds * 1000) else s.min
              max := if s.max < resp.elapsed_total_seconds * 1000 then
                  resp.elapsed_total_seconds * 1000 else s.max } := by
        simp [stepOutcome, h1]
      rw [hstep]
      set e : ℚ := resp.elapsed_total_seconds * 1000 with he
      refine ⟨?_, ?_, ?_⟩
      · simp [hc]
      · intro x hx
        simp only [List.mem_append, List.mem_singleton] at hx
        rcases hx with hx | rfl
        · obtain ⟨m, hsm, hmx⟩ := hmin x hx
          by_cases hlt : ltInf e s.min
          · refine ⟨e, by simp [hlt], ?_⟩
            have hem : e < m := by
              rw [hsm] at hlt
              simpa [ltInf] using hlt
            linarith
          · exact ⟨m, by rw [if_neg hlt, hsm], hmx⟩
        · by_cases hlt : ltInf e s.min
          · exact ⟨e, by simp [hlt], le_refl e⟩
          · cases hsm : s.min with
            | none =>
              rw [hsm] at hlt
              simp [ltInf] at hlt
            | some v =>
              have hve : ¬ e < v := by
                rw [hsm] at hlt
                simpa [ltInf] using hlt
              refine ⟨v, ?_, by linarith⟩
              rw [hsm] at hlt
              rw [if_neg hlt]
      · intro x hx
        simp only [List.mem_append, List.mem_singleton] at hx
        by_cases hlt : s.max < e
        · rcases hx with hx | rfl
          · have hxs := hmax x hx
            simp only [if_pos hlt]
            linarith
          · simp [hlt]
        · rcases hx with hx | rfl
          · simpa [hlt] using hmax x hx
          · simp only [if_neg hlt]
            exact le_of_not_lt hlt
    · by_cases h2 : 400 ≤ resp.status_code ∧ resp.status_code < 600
      · have hstep : stepOutcome s (some resp) = { s with failed := s.failed + 1 } := by
          simp [stepOutcome, h1, h2]
        rw [hstep]
        exact ⟨hc, hmin, hmax⟩
      · have hstep : stepOutcome s (some resp) = { s with errors := s.errors + 1 } := by
          simp [stepOutcome, h1, h2]
        rw [hstep]
        exact ⟨hc, hmin, hmax⟩

/-- The whole loop preserves the invariant. -/
theorem inv_foldl (l : List Outcome) : ∀ s : AggState, Inv s → Inv (l.foldl stepOutcome s) := by
  induction l with
  | nil =>
    intro s h
    simpa using h
  | cons r rest ih =>
    intro s h
    rw [List.foldl_cons]
    exact ih _ (inv_step s r h)

/-- A common lower bound on the elements of a list bounds its sum from
below, scaled by the length. -/
theorem mul_length_le_sum (l : List ℚ) (m : ℚ) (h : ∀ x ∈ l, m ≤ x) :
    m * (l.length : ℚ) ≤ l.sum := by
  induction l with
  | nil => simp
  | cons a t ih =>
    have ha : m ≤ a := h a (by simp)
    have ht : m * (t.length : ℚ) ≤ t.sum := ih (fun x hx => h x (by simp [hx]))
    simp only [List.length_cons, List.sum_cons]
    push_cast
    linarith

/-- A common upper bound on the elements of a list bounds its sum from
above, scaled by the length. -/
theorem sum_le_mul_length (l : List ℚ) (M : ℚ) (h : ∀ x ∈ l, x ≤ M) :
    l.sum ≤ M * (l.length : ℚ) := by
  induction l with
  | nil => simp
  | cons a t ih =>
    have ha : a ≤ M := h a (by simp)
    have ht : t.sum ≤ M * (t.length : ℚ) := ih (fun x hx => h x (by simp [hx]))
    simp only [List.length_cons, List.sum_cons]
    push_cast
    linarith

/-- The success count of the finalized report is the loop state's success
counter, in either finalization branch. -/
theorem finalizeReport_success (host : String) (s : AggState) :
    (finalizeReport host s).success = s.success := by
  unfold finalizeReport
  split <;> rfl

/-- With at least one latency sample, finalization takes the statistics
branch. -/
theorem finalizeReport_pos (host : String) (s : AggState)
    (hpos : 0 < s.times_list.length) :
    finalizeReport host s
      = { host := host
          success := s.success
          failed := s.failed
          errors := s.errors
          min := match s.min with | none => 0 | some v => v
          max := s.max
          avg := s.times_list.sum / (s.times_list.length : ℚ) } := by
  unfold finalizeReport
  rw [if_pos hpos]

/-- Claim C6: whenever the built report has a positive success count, its
minimum latency is at most its average latency, which is at most its
maximum latency. -/
theorem buildReport_min_avg_max (host : String) (l : List Outcome)
    (h : 0 < (buildReport host l).success) :
    (buildReport host l).min ≤ (buildReport host l).avg ∧
      (buildReport host l).avg ≤ (buildReport host l).max := by
  have key : ∀ s : AggState, Inv s → 0 < (finalizeReport host s).success →
      (finalizeReport host s).min ≤ (finalizeReport host s).avg ∧
        (finalizeReport host s).avg ≤ (finalizeReport host s).max := by
    intro s hinv hsucc
    obtain ⟨hc, hmin, hmax⟩ := hinv
    have hpos : 0 < s.times_list.length := by
      rwa [finalizeReport_success, hc] at hsucc
    rw [finalizeReport_pos host s hpos]
    obtain ⟨x0, hx0⟩ : ∃ x, x ∈ s.times_list :=
      List.exists_mem_of_ne_nil s.times_list (by
        intro hnil
        rw [hnil] at hpos
        simp at hpos)
    obtain ⟨m, hsm, hmx0⟩ := hmin x0 hx0
    have hall : ∀ x ∈ s.times_list, m ≤ x := by
      intro x hx
      obtain ⟨m', hsm', hm'x⟩ := hmin x hx
      rw [hsm] at hsm'
      injection hsm' with hmm
      rw [hmm]
      exact hm'x
    have hn : (0 : ℚ) < (s.times_list.length : ℚ) := by exact_mod_cast hpos
    constructor
    · show (match s.min with | none => 0 | some v => v)
        ≤ s.times_list.sum / (s.times_list.length : ℚ)
      rw [hsm]
      rw [le_div_iff₀ hn]
      exact mul_length_le_sum s.times_list m hall
    · show s.times_list.sum / (s.times_list.length : ℚ) ≤ s.max
      rw [div_le_iff₀ hn]
      exact sum_le_mul_length s.times_list s.max hmax
  exact key _ (inv_foldl l _ inv_init) h

/-- Witness for claim C6 at a single successful outcome: the success count
is positive and the three statistics are ordered. -/
theorem buildReport_min_avg_max_witness :
    0 < (buildReport "h" [some ⟨200, 1⟩]).success ∧
      ((buildReport "h" [some ⟨200, 1⟩]).min ≤ (buildReport "h" [some ⟨200, 1⟩]).avg ∧
        (buildReport "h" [some ⟨200, 1⟩]).avg ≤ (buildReport "h" [some ⟨200, 1⟩]).max) := by
  have hp : 0 < (buildReport "h" [some ⟨200, 1⟩]).success := by
    norm_num [buildReport, finalizeReport, stepOutcome, ltInf]
  exact ⟨hp, buildReport_min_avg_max "h" _ hp⟩

/-- The fallible loop iteration never actually fails, and computes the same
state as the plain one: the sentinel check precedes every attribute access. -/
theorem stepOutcomeChecked_eq (s : AggState) (r : Outcome) :
    stepOutcomeChecked s r = some (stepOutcome s r) := by
  cases r with
  | none => rfl
  | some resp =>
    by_cases h1 : resp.status_code = 200
    · simp [stepOutcomeChecked, stepOutcome, getStatus, getElapsedSeconds, h1]
    · by_cases h2 : 400 ≤ resp.status_code ∧ resp.status_code < 600
      · simp [stepOutcomeChecked, stepOutcome, getStatus, getElapsedSeconds, h1, h2]
      · simp [stepOutcomeChecked, stepOutcome, getStatus, getElapsedSeconds, h1, h2]

/-- The fallible loop never fails over any sequence. -/
theorem foldlM_stepOutcomeChecked (l : List Outcome) :
    ∀ s : AggState, l.foldlM stepOutcomeChecked s = some (l.foldl stepOutcome s) := by
  induction l with
  | nil =>
    intro s
    rfl
  | cons r rest ih =>
    intro s
    rw [List.foldlM_cons, stepOutcomeChecked_eq]
    simp [ih]

/-- Claim C9: report construction is total over every sequence mixing
responses and the failure sentinel: the run with explicit fallible sentinel
dereferences succeeds on every input and returns exactly the report built
by the plain constructor. -/
theorem buildReportChecked_total (host : String) (l : List Outcome) :
    buildReportChecked host l = some (buildReport host l) := by
  unfold buildReportChecked buildReport
  rw [foldlM_stepOutcomeChecked]
  rfl

/-- Claim C5: probing raises exactly when the requested count is not
positive; for a positive count it returns the outcomes of the `count`
transport calls made against the same url and timeout, in attempt order,
and the returned list has length `count`. -/
theorem get_response_list_spec (t : Transport) (url : String) (timeout : ℚ) (count : Int) :
    ((∃ e, get_response_list t url timeout count = .error e) ↔ count ≤ 0) ∧
      (1 ≤ count →
        get_response_list t url timeout count
            = .ok ((List.range count.toNat).map fun i => t url timeout i) ∧
          ∀ outs, get_response_list t url timeout count = .ok outs →
            (outs.length : Int) = count) := by
  constructor
  · constructor
    · rintro ⟨e, he⟩
      by_contra hc
      unfold get_response_list at he
      rw [if_neg hc] at he
      exact Except.noConfusion he
    · intro hc
      refine ⟨"Count должен быть больше > 0", ?_⟩
      unfold get_response_list
      rw [if_pos hc]
  · intro h1
    have hn : ¬ count ≤ 0 := by omega
    constructor
    · unfold get_response_list
      rw [if_neg hn]
    · intro outs ho
      unfold get_response_list at ho
      rw [if_neg hn] at ho
      have hmap : ((List.range count.toNat).map fun i => t url timeout i) = outs := by
        injection ho
      rw [← hmap]
      simp
      omega

/-- Witness for claim C5 with a transport whose calls all fail, a valid
count of 3: no raise, and the three outcomes in order. -/
theorem get_response_list_spec_witness :
    1 ≤ (3 : Int) ∧
      get_response_list (fun _ _ _ => none) "https://a.bc" 10 3
        = .ok [none, none, none] := by
  have h := (get_response_list_spec (fun _ _ _ => none) "https://a.bc" 10 3).2 (by decide)
  refine ⟨by decide, ?_⟩
  rw [h.1]
  rfl

/-- Claim C4: on the host list `["bad url", "https://good.example.com"]`
the sequential runner returns no report at all — the second host is valid,
but the raise on the first host aborts the whole batch, whatever the
transport and timeout. The spec's corrected contract expects one report and
one recorded rejection instead. -/
theorem test_hosts_aborts_batch (t : Transport) (timeout : ℚ) :
    validate_url "https://good.example.com" = true ∧
      test_hosts t ["bad url", "https://good.example.com"] timeout 1 = [] := by
  have hbad : validate_url "bad url" = false := by decide
  refine ⟨by decide, ?_⟩
  simp [test_hosts, test_host, hbad]

/-- Claim C7: the validator accepts `https://example.com/path` and rejects
`ftp://example.com` (missing http/https scheme) and `not a url` (embedded
whitespace, no scheme). -/
theorem validate_url_examples :
    validate_url "https://example.com/path" = true ∧
      validate_url "ftp://example.com" = false ∧
      validate_url "not a url" = false := by
  refine ⟨by decide, by decide, by decide⟩

/-- Every accepted character list starts with the four lowercase letters
`http`: both branches of the anchored scheme alternation require them. -/
theorem urlChars_scheme (l : List Char) (h : urlChars l = true) :
    l.take 4 = ['h', 't', 't', 'p'] := by
  unfold urlChars at h
  split at h
  · rfl
  · rfl
  · exact absurd h (by simp)

/-- Claim C10: the scheme is matched case-sensitively: any accepted string
starts with lowercase `http`, so `HTTP://example.com` is rejected, while
uppercase letters in the host and TLD are accepted. -/
theorem validate_url_scheme_case :
    (∀ s : String, validate_url s = true → s.toList.take 4 = ['h', 't', 't', 'p']) ∧
      validate_url "HTTP://example.com" = false ∧
      validate_url "https://EXAMPLE.COM" = true := by
  refine ⟨?_, by decide, by decide⟩
  intro s h
  exact urlChars_scheme s.toList h

/-- Witness for claim C10 at `http://a.bc`: it is accepted, and its first
four characters are lowercase `http`. -/
theorem validate_url_scheme_case_witness :
    validate_url "http://a.bc" = true ∧
      ("http://a.bc" : String).toList.take 4 = ['h', 't', 't', 'p'] := by
  have hv : validate_url "http://a.bc" = true := by decide
  exact ⟨hv, validate_url_scheme_case.1 "http://a.bc" hv⟩

end HostBench
